import Mathlib

/-!
Verification development for the Auto/Electronics text-classification pipeline
(`Auto_Electronics_Text_Mining.ipynb`).

The pipeline is a straight-line composition: corpus loading from a zip archive,
tokenization (a plain variant and a stemming variant), bag-of-words counting
with a sorted vocabulary (`CountVectorizer` with `lowercase=True`), smoothed
TF-IDF weighting with row L2-normalization (`TfidfTransformer` defaults),
truncated SVD plus row normalization (LSA), a seeded train/test split and a
seeded random-forest classifier.

Strings are modelled over the ASCII range: Python `str.isalpha` / `str.lower`
are modelled by per-character ASCII tests, which is faithful for the inputs
appearing in the theorems below.  Floating-point arithmetic is modelled over
the reals.  External collaborators that are only configured, never redefined,
by the notebook (`word_tokenize`, the SVD solver, the splitter, the forest)
enter either as faithful models of the published library semantics (the
Snowball stemmer, the stopword list, the `TruncatedSVD` validation) or as
function parameters.
-/

set_option maxRecDepth 100000

namespace AutoElectronics

/-- Model of Python `str.lower` restricted to ASCII: uppercase letters are
shifted by 32, all other characters kept. -/
def charLower (c : Char) : Char :=
  if 65 ≤ c.toNat ∧ c.toNat ≤ 90 then Char.ofNat (c.toNat + 32) else c

/-- Model of Python `str.lower` on whole strings (character-wise). -/
def lowerStr (s : String) : String := String.mk (s.toList.map charLower)

/-- Model of Python `str.isalpha` restricted to ASCII letters: true iff the
string is nonempty and consists of letters only. -/
def pyIsAlpha (s : String) : Bool :=
  !s.toList.isEmpty && s.toList.all (fun c => c.isAlpha)

/-- The sklearn `ENGLISH_STOP_WORDS` frozen set (the 318-word Glasgow IR list),
imported by the notebook and stored by both tokenizer classes. -/
def ENGLISH_STOP_WORDS : List String :=
  ["a", "about", "above", "across", "after", "afterwards", "again", "against",
   "all", "almost", "alone", "along", "already", "also", "although", "always",
   "am", "among", "amongst", "amoungst", "amount", "an", "and", "another",
   "any", "anyhow", "anyone", "anything", "anyway", "anywhere", "are",
   "around", "as", "at", "back", "be", "became", "because", "become",
   "becomes", "becoming", "been", "before", "beforehand", "behind", "being",
   "below", "beside", "besides", "between", "beyond", "bill", "both",
   "bottom", "but", "by", "call", "can", "cannot", "cant", "co", "con",
   "could", "couldnt", "cry", "de", "describe", "detail", "do", "done",
   "down", "due", "during", "each", "eg", "eight", "either", "eleven",
   "else", "elsewhere", "empty", "enough", "etc", "even", "ever", "every",
   "everyone", "everything", "everywhere", "except", "few", "fifteen",
   "fifty", "fill", "find", "fire", "first", "five", "for", "former",
   "formerly", "forty", "found", "four", "from", "front", "full", "further",
   "get", "give", "go", "had", "has", "hasnt", "have", "he", "hence", "her",
   "here", "hereafter", "hereby", "herein", "hereupon", "hers", "herself",
   "him", "himself", "his", "how", "however", "hundred", "i", "ie", "if",
   "in", "inc", "indeed", "interest", "into", "is", "it", "its", "itself",
   "keep", "last", "latter", "latterly", "least", "less", "ltd", "made",
   "many", "may", "me", "meanwhile", "might", "mill", "mine", "more",
   "moreover", "most", "mostly", "move", "much", "must", "my", "myself",
   "name", "namely", "neither", "never", "nevertheless", "next", "nine",
   "no", "nobody", "none", "noone", "nor", "not", "nothing", "now",
   "nowhere", "of", "off", "often", "on", "once", "one", "only", "onto",
   "or", "other", "others", "otherwise", "our", "ours", "ourselves", "out",
   "over", "own", "part", "per", "perhaps", "please", "put", "rather", "re",
   "same", "see", "seem", "seemed", "seeming", "seems", "serious", "several",
   "she", "should", "show", "side", "since", "sincere", "six", "sixty",
   "so", "some", "somehow", "someone", "something", "sometime", "sometimes",
   "somewhere", "still", "such", "system", "take", "ten", "than", "that",
   "the", "their", "them", "themselves", "then", "thence", "there",
   "thereafter", "thereby", "therefore", "therein", "thereupon", "these",
   "they", "thick", "thin", "third", "this", "those", "though", "three",
   "through", "throughout", "thru", "thus", "to", "together", "too", "top",
   "toward", "towards", "twelve", "twenty", "two", "un", "under", "until",
   "up", "upon", "us", "very", "via", "was", "we", "well", "were", "what",
   "whatever", "when", "whence", "whenever", "where", "whereafter",
   "whereas", "whereby", "wherein", "whereupon", "wherever", "whether",
   "which", "while", "whither", "who", "whoever", "whole", "whom", "whose",
   "why", "will", "with", "within", "without", "would", "yet", "you",
   "your", "yours", "yourself", "yourselves"]

/-- Membership test against the stopword set held by the tokenizer classes. -/
def stopContains (t : String) : Bool := ENGLISH_STOP_WORDS.contains t

/-! ## The Snowball English stemmer

Model of `nltk.stem.snowball.EnglishStemmer.stem` (constructed with default
`ignore_stopwords=False`), which implements the Snowball English (Porter2)
suffix-stripping algorithm.  The model covers apostrophe-free input (the
notebook only applies the stemmer to alphabetic tokens), so the apostrophe
normalization of step 0 is omitted.  Words are processed as character lists;
the two region cursors `p1`, `p2` are fixed positions computed up front,
exactly as in the reference implementation. -/

/-- Snowball vowel test; the marked consonant `Y` is deliberately excluded. -/
def isVowel (c : Char) : Bool :=
  c = 'a' || c = 'e' || c = 'i' || c = 'o' || c = 'u' || c = 'y'

/-- Mark `y` as the consonant `Y` when it is word-initial or follows a vowel;
the boolean argument records whether the previous (already rewritten)
character is a vowel, and is true initially so that a leading `y` is marked. -/
def markYAux : Bool → List Char → List Char
  | _, [] => []
  | prevVowel, c :: cs =>
      if c = 'y' && prevVowel then 'Y' :: markYAux false cs
      else c :: markYAux (isVowel c) cs

/-- Consonant-marking prelude of the stemmer. -/
def markYs (w : List Char) : List Char := markYAux true w

/-- Distance to the position right after the first non-vowel, while inside a
vowel run (used after the first vowel has been found). -/
def seekNonVowel : List Char → Nat
  | [] => 0
  | c :: cs => if isVowel c then 1 + seekNonVowel cs else 1

/-- Distance to the position right after the first non-vowel that follows a
vowel; the whole length when there is no such pattern.  This is the standard
region computation of the Snowball algorithm. -/
def seekVowelThen : List Char → Nat
  | [] => 0
  | c :: cs => if isVowel c then 1 + seekNonVowel cs else 1 + seekVowelThen cs

/-- Start position of region R1, with the exceptional `gener`, `commun` and
`arsen` word openings of the English algorithm. -/
def computeP1 (w : List Char) : Nat :=
  if List.isPrefixOf "gener".toList w then 5
  else if List.isPrefixOf "commun".toList w then 6
  else if List.isPrefixOf "arsen".toList w then 5
  else seekVowelThen w

/-- Start position of region R2: the region computation applied again from the
start of R1. -/
def computeP2 (w : List Char) (p1 : Nat) : Nat := p1 + seekVowelThen (w.drop p1)

/-- Does the word end in a short syllable: non-vowel, vowel, non-vowel other
than `w`, `x`, `Y`; or exactly a vowel followed by a non-vowel. -/
def endsShortSyllable (w : List Char) : Bool :=
  match w.reverse with
  | c3 :: c2 :: c1 :: _ =>
      !isVowel c1 && isVowel c2 && !isVowel c3 && !(c3 = 'w' || c3 = 'x' || c3 = 'Y')
  | [c2, c1] => isVowel c1 && !isVowel c2
  | _ => false

/-- Suffix test on the character-list representation of the current word. -/
def endsWith (w : List Char) (s : String) : Bool := List.isSuffixOf s.toList w

/-- Remove the last `k` characters. -/
def chop (w : List Char) (k : Nat) : List Char := w.take (w.length - k)

/-- Replace the last `k` characters by the given string. -/
def repl (w : List Char) (k : Nat) (r : String) : List Char := chop w k ++ r.toList

/-- Is a suffix of length `sufLen` of the current word entirely inside the
region starting at position `p`. -/
def inR (w : List Char) (sufLen p : Nat) : Bool := p + sufLen ≤ w.length

/-- Does the word part contain a vowel. -/
def hasVowel (w : List Char) : Bool := w.any isVowel

/-- Does the word end in one of the doubles `bb dd ff gg mm nn pp rr tt`. -/
def isDoubleEnd (w : List Char) : Bool :=
  match w.reverse with
  | c :: d :: _ =>
      c = d && (c = 'b' || c = 'd' || c = 'f' || c = 'g' || c = 'm' ||
                c = 'n' || c = 'p' || c = 'r' || c = 't')
  | _ => false

/-- Last character of a word part, with a non-letter placeholder default. -/
def lastCharD (w : List Char) : Char := w.getLastD '*'

/-- Is a character a valid li-ending (`c d e g h k m n r t`). -/
def liEnding (c : Char) : Bool :=
  c = 'c' || c = 'd' || c = 'e' || c = 'g' || c = 'h' || c = 'k' ||
  c = 'm' || c = 'n' || c = 'r' || c = 't'

/-- Step 1a of the Snowball English algorithm. -/
def step1a (w : List Char) : List Char :=
  if endsWith w "sses" then chop w 2
  else if endsWith w "ied" || endsWith w "ies" then
    (if 5 ≤ w.length then chop w 2 else chop w 1)
  else if endsWith w "us" || endsWith w "ss" then w
  else if endsWith w "s" then
    (if hasVowel (chop w 2) then chop w 1 else w)
  else w

/-- Aftermath of the `ed`/`ing` deletions in step 1b: restore `e` after `at`,
`bl`, `iz`, undouble a double ending, or add `e` to a short word. -/
def step1bAfter (p1 : Nat) (v : List Char) : List Char :=
  if endsWith v "at" || endsWith v "bl" || endsWith v "iz" then v ++ ['e']
  else if isDoubleEnd v then chop v 1
  else if endsShortSyllable v && v.length ≤ p1 then v ++ ['e']
  else v

/-- Step 1b of the Snowball English algorithm. -/
def step1b (p1 : Nat) (w : List Char) : List Char :=
  if endsWith w "eedly" then (if inR w 5 p1 then repl w 5 "ee" else w)
  else if endsWith w "ingly" then
    (if hasVowel (chop w 5) then step1bAfter p1 (chop w 5) else w)
  else if endsWith w "edly" then
    (if hasVowel (chop w 4) then step1bAfter p1 (chop w 4) else w)
  else if endsWith w "eed" then (if inR w 3 p1 then repl w 3 "ee" else w)
  else if endsWith w "ing" then
    (if hasVowel (chop w 3) then step1bAfter p1 (chop w 3) else w)
  else if endsWith w "ed" then
    (if hasVowel (chop w 2) then step1bAfter p1 (chop w 2) else w)
  else w

/-- Step 1c: final `y` or `Y` preceded by a non-vowel which is not the first
letter becomes `i`. -/
def step1c (w : List Char) : List Char :=
  match w.reverse with
  | c :: d :: rest =>
      if (c = 'y' || c = 'Y') && !isVowel d && !rest.isEmpty
      then repl w 1 "i" else w
  | _ => w

/-- Step 2: longest-suffix rewrite table, applicable inside R1 only. -/
def step2 (p1 : Nat) (w : List Char) : List Char :=
  if endsWith w "ization" then (if inR w 7 p1 then repl w 7 "ize" else w)
  else if endsWith w "ational" then (if inR w 7 p1 then repl w 7 "ate" else w)
  else if endsWith w "fulness" then (if inR w 7 p1 then chop w 4 else w)
  else if endsWith w "ousness" then (if inR w 7 p1 then chop w 4 else w)
  else if endsWith w "iveness" then (if inR w 7 p1 then chop w 4 else w)
  else if endsWith w "tional" then (if inR w 6 p1 then chop w 2 else w)
  else if endsWith w "biliti" then (if inR w 6 p1 then repl w 6 "ble" else w)
  else if endsWith w "lessli" then (if inR w 6 p1 then chop w 2 else w)
  else if endsWith w "entli" then (if inR w 5 p1 then chop w 2 else w)
  else if endsWith w "ation" then (if inR w 5 p1 then repl w 5 "ate" else w)
  else if endsWith w "alism" then (if inR w 5 p1 then chop w 3 else w)
  else if endsWith w "aliti" then (if inR w 5 p1 then chop w 3 else w)
  else if endsWith w "ousli" then (if inR w 5 p1 then chop w 2 else w)
  else if endsWith w "iviti" then (if inR w 5 p1 then repl w 5 "ive" else w)
  else if endsWith w "fulli" then (if inR w 5 p1 then chop w 2 else w)
  else if endsWith w "enci" then (if inR w 4 p1 then repl w 4 "ence" else w)
  else if endsWith w "anci" then (if inR w 4 p1 then repl w 4 "ance" else w)
  else if endsWith w "abli" then (if inR w 4 p1 then repl w 4 "able" else w)
  else if endsWith w "izer" then (if inR w 4 p1 then chop w 1 else w)
  else if endsWith w "ator" then (if inR w 4 p1 then repl w 4 "ate" else w)
  else if endsWith w "alli" then (if inR w 4 p1 then chop w 2 else w)
  else if endsWith w "bli" then (if inR w 3 p1 then repl w 3 "ble" else w)
  else if endsWith w "ogi" then
    (if inR w 3 p1 && lastCharD (chop w 3) = 'l' then chop w 1 else w)
  else if endsWith w "li" then
    (if inR w 2 p1 && liEnding (lastCharD (chop w 2)) then chop w 2 else w)
  else w

/-- Step 3: longest-suffix rewrite table inside R1, with `ative` requiring R2. -/
def step3 (p1 p2 : Nat) (w : List Char) : List Char :=
  if endsWith w "ational" then (if inR w 7 p1 then repl w 7 "ate" else w)
  else if endsWith w "tional" then (if inR w 6 p1 then chop w 2 else w)
  else if endsWith w "alize" then (if inR w 5 p1 then chop w 3 else w)
  else if endsWith w "icate" then (if inR w 5 p1 then chop w 3 else w)
  else if endsWith w "iciti" then (if inR w 5 p1 then chop w 3 else w)
  else if endsWith w "ative" then
    (if inR w 5 p1 && inR w 5 p2 then chop w 5 else w)
  else if endsWith w "ical" then (if inR w 4 p1 then chop w 2 else w)
  else if endsWith w "ness" then (if inR w 4 p1 then chop w 4 else w)
  else if endsWith w "ful" then (if inR w 3 p1 then chop w 3 else w)
  else w

/-- Step 4: longest-suffix deletions inside R2, with the `s`/`t` guard on
`ion`. -/
def step4 (p2 : Nat) (w : List Char) : List Char :=
  if endsWith w "ement" then (if inR w 5 p2 then chop w 5 else w)
  else if endsWith w "ance" then (if inR w 4 p2 then chop w 4 else w)
  else if endsWith w "ence" then (if inR w 4 p2 then chop w 4 else w)
  else if endsWith w "able" then (if inR w 4 p2 then chop w 4 else w)
  else if endsWith w "ible" then (if inR w 4 p2 then chop w 4 else w)
  else if endsWith w "ment" then (if inR w 4 p2 then chop w 4 else w)
  else if endsWith w "ant" then (if inR w 3 p2 then chop w 3 else w)
  else if endsWith w "ent" then (if inR w 3 p2 then chop w 3 else w)
  else if endsWith w "ism" then (if inR w 3 p2 then chop w 3 else w)
  else if endsWith w "ate" then (if inR w 3 p2 then chop w 3 else w)
  else if endsWith w "iti" then (if inR w 3 p2 then chop w 3 else w)
  else if endsWith w "ous" then (if inR w 3 p2 then chop w 3 else w)
  else if endsWith w "ive" then (if inR w 3 p2 then chop w 3 else w)
  else if endsWith w "ize" then (if inR w 3 p2 then chop w 3 else w)
  else if endsWith w "ion" then
    (if inR w 3 p2 && (lastCharD (chop w 3) = 's' || lastCharD (chop w 3) = 't')
     then chop w 3 else w)
  else if endsWith w "al" then (if inR w 2 p2 then chop w 2 else w)
  else if endsWith w "er" then (if inR w 2 p2 then chop w 2 else w)
  else if endsWith w "ic" then (if inR w 2 p2 then chop w 2 else w)
  else w

/-- Step 5: final `e` deletion (in R2, or in R1 when not preceded by a short
syllable) and final `l` undoubling in R2. -/
def step5 (p1 p2 : Nat) (w : List Char) : List Char :=
  if endsWith w "e" then
    (if inR w 1 p2 then chop w 1
     else if inR w 1 p1 && !endsShortSyllable (chop w 1) then chop w 1
     else w)
  else if endsWith w "l" then
    (if inR w 1 p2 && lastCharD (chop w 1) = 'l' then chop w 1 else w)
  else w

/-- Undo the consonant marking: `Y` back to `y`. -/
def unmarkY (w : List Char) : List Char :=
  w.map (fun c => if c = 'Y' then 'y' else c)

/-- Exceptional forms of the English algorithm, exactly the special-word table
of the NLTK implementation (invariant words plus irregular stems, with their
inflected forms). -/
def specialWords : List (String × String) :=
  [("skis", "ski"), ("skies", "sky"), ("dying", "die"), ("lying", "lie"),
   ("tying", "tie"), ("idly", "idl"), ("gently", "gentl"), ("ugly", "ugli"),
   ("early", "earli"), ("only", "onli"), ("singly", "singl"), ("sky", "sky"),
   ("news", "news"), ("howe", "howe"), ("atlas", "atlas"),
   ("cosmos", "cosmos"), ("bias", "bias"), ("andes", "andes"),
   ("inning", "inning"), ("innings", "inning"), ("outing", "outing"),
   ("outings", "outing"), ("canning", "canning"), ("cannings", "canning"),
   ("herring", "herring"), ("herrings", "herring"), ("earring", "earring"),
   ("earrings", "earring"), ("proceed", "proceed"), ("proceeds", "proceed"),
   ("proceeded", "proceed"), ("proceeding", "proceed"), ("exceed", "exceed"),
   ("exceeds", "exceed"), ("exceeded", "exceed"), ("exceeding", "exceed"),
   ("succeed", "succeed"), ("succeeds", "succeed"), ("succeeded", "succeed"),
   ("succeeding", "succeed")]

/-- Stemming pass applied to the already-lowercased word. -/
def stemLower (w0 : String) : String :=
  if w0.toList.length ≤ 2 then w0
  else
    match specialWords.lookup w0 with
    | some r => r
    | none =>
        let w := markYs w0.toList
        let p1 := computeP1 w
        let p2 := computeP2 w p1
        let w := step1a w
        let w := step1b p1 w
        let w := step1c w
        let w := step2 p1 w
        let w := step3 p1 p2 w
        let w := step4 p2 w
        let w := step5 p1 p2 w
        String.mk (unmarkY w)

/-- Model of `EnglishStemmer.stem`: lowercase, then run the Snowball English
algorithm. -/
def stem (s : String) : String := stemLower (lowerStr s)

/-! ## Tokenizers

Both tokenizer classes are transliterated from their `__call__` list
comprehensions.  The external `word_tokenize` function is a parameter `wt`;
a concrete instance for whitespace-separated text is provided below for
concrete evaluations. -/

/-- Transliteration of `SimpleTokenizer.__call__`: keep a token when it is
alphabetic and its lowercased form is not a stopword. -/
def simpleTokenizer (wt : String → List String) (doc : String) : List String :=
  (wt doc).foldr
    (fun t acc => if pyIsAlpha t && !stopContains (lowerStr t) then t :: acc else acc) []

/-- Transliteration of `LemmaTokenizer.__call__`: the comprehension emits the
stem of every token that is alphabetic and is not itself (without
lowercasing) a stopword; the stopword test is evaluated on the raw token. -/
def lemmaTokenizer (wt : String → List String) (doc : String) : List String :=
  (wt doc).foldr
    (fun t acc => if pyIsAlpha t && !stopContains t then stem t :: acc else acc) []

/-- Reading of the stemming tokenizer described by claim C4, for comparison
with the code: the stemming rewrite applied to each token before that token
is compared against the stopword set. -/
def lemmaTokenizerClaimOrder (wt : String → List String) (doc : String) : List String :=
  (wt doc).foldr
    (fun t acc => if pyIsAlpha t && !stopContains (stem t) then stem t :: acc else acc) []

/-- Splitting accumulator for the concrete tokenization model: cut the
character stream at spaces, dropping empty pieces. -/
def splitWordsAux : List Char → List Char → List String
  | [], acc => if acc.isEmpty then [] else [String.mk acc.reverse]
  | c :: cs, acc =>
      if c = ' ' then
        (if acc.isEmpty then splitWordsAux cs []
         else String.mk acc.reverse :: splitWordsAux cs [])
      else splitWordsAux cs (c :: acc)

/-- Concrete model of the external nltk `word_tokenize` on whitespace-separated
text (the general function additionally splits punctuation, which never occurs
in the concrete documents used below). -/
def wordTokenize (doc : String) : List String := splitWordsAux doc.toList []

/-! ## Vectorizer

`CountVectorizer(tokenizer=..., encoding="latin1")` keeps `lowercase=True`,
so each document is lowercased before the custom tokenizer runs; the fitted
vocabulary is the sorted set of all produced tokens and each row counts the
occurrences of each vocabulary term. -/

/-- Code-point comparison of strings as character lists (model of the Python
string ordering used by the sorted vocabulary). -/
def charListLe : List Char → List Char → Bool
  | [], _ => true
  | _ :: _, [] => false
  | a :: as, b :: bs => if a = b then charListLe as bs else decide (a.toNat < b.toNat)

/-- String comparison for the vocabulary sort. -/
def strLe (a b : String) : Bool := charListLe a.toList b.toList

/-- Insert into a sorted list of strings. -/
def insertSorted (s : String) : List String → List String
  | [] => [s]
  | t :: ts => if strLe s t then s :: t :: ts else t :: insertSorted s ts

/-- Insertion sort by `strLe` (model of sorting the fitted vocabulary). -/
def sortStrings : List String → List String
  | [] => []
  | s :: ss => insertSorted s (sortStrings ss)

/-- Document analysis of `CountVectorizer` with a custom tokenizer: lowercase
preprocessing, then the tokenizer. -/
def cvAnalyze (tokenizer : String → List String) (doc : String) : List String :=
  tokenizer (lowerStr doc)

/-- Fitted vocabulary: the sorted set of all tokens of all documents. -/
def buildVocabulary (tokenizer : String → List String) (corpus : List String) : List String :=
  sortStrings ((corpus.map (cvAnalyze tokenizer)).flatten).dedup

/-- One row of the document-term count matrix. -/
def countRow (vocab toks : List String) : List Nat :=
  vocab.map (fun v => toks.count v)

/-- The document-term count matrix of `fit_transform`. -/
def fitTransformCounts (tokenizer : String → List String) (corpus : List String) :
    List (List Nat) :=
  corpus.map (fun d => countRow (buildVocabulary tokenizer corpus) (cvAnalyze tokenizer d))

/-! ## TF-IDF weighting

`TfidfTransformer()` defaults: `norm="l2"`, `use_idf=True`, `smooth_idf=True`,
`sublinear_tf=False`.  Raw counts are multiplied by the smoothed inverse
document frequency and each row is then L2-normalized.  Real numbers model the
floating-point arithmetic. -/

/-- Number of documents whose count for term `j` is nonzero. -/
def docFreq (counts : List (List Nat)) (j : Nat) : Nat :=
  (counts.filter (fun row => row.getD j 0 != 0)).length

/-- Smoothed inverse document frequency of `TfidfTransformer`. -/
noncomputable def idf (n dfj : Nat) : ℝ :=
  Real.log ((1 + (n : ℝ)) / (1 + (dfj : ℝ))) + 1

/-- Count matrix rescaled column-wise by the smoothed idf. -/
noncomputable def tfidfWeighted (counts : List (List Nat)) : List (List ℝ) :=
  counts.map (fun row =>
    (List.range row.length).map
      (fun j => (row.getD j 0 : ℝ) * idf counts.length (docFreq counts j)))

/-- Sum of squares of a row. -/
noncomputable def sumSq (row : List ℝ) : ℝ := (row.map (fun x => x ^ 2)).sum

/-- Euclidean norm of a row. -/
noncomputable def rowNorm (row : List ℝ) : ℝ := Real.sqrt (sumSq row)

/-- L2 row normalization; rows of zero norm are returned unchanged, as in the
sklearn `normalize` routine used by `TfidfTransformer` and `Normalizer`. -/
noncomputable def l2normalizeRow (row : List ℝ) : List ℝ :=
  if rowNorm row = 0 then row else row.map (fun x => x / rowNorm row)

/-- The TF-IDF matrix of `TfidfTransformer.fit_transform` on a count matrix. -/
noncomputable def tfidfTransform (counts : List (List Nat)) : List (List ℝ) :=
  (tfidfWeighted counts).map l2normalizeRow

/-- Row normalization stage of the LSA pipeline (`Normalizer(copy=False)`). -/
noncomputable def normalizerTransform (m : List (List ℝ)) : List (List ℝ) :=
  m.map l2normalizeRow

/-- Model of the parameter validation performed by the sklearn
`TruncatedSVD.fit_transform` with the default randomized solver: the number of
components may not exceed the number of features; the number of samples is not
consulted.  The check runs inside `fit_transform`, before the decomposition. -/
def truncatedSVDFitCheck (nComponents nSamples nFeatures : Nat) : Except String Unit :=
  if nFeatures < nComponents then
    Except.error "n_components must not exceed n_features"
  else Except.ok ()

/-! ## Corpus loading

Both notebook sections read the same archive with the same loop: skip
directories, label 1 when the member name contains the marker, and collect the
raw bytes.  The archive is modelled as a list of entries. -/

/-- One archive member: name, directory flag and (decoded) content. -/
structure ZipEntry where
  filename : String
  isDir : Bool
  content : String

/-- Substring search on character lists. -/
def strContainsSub (needle : List Char) : List Char → Bool
  | [] => needle.isEmpty
  | c :: cs => List.isPrefixOf needle (c :: cs) || strContainsSub needle cs

/-- Model of the Python containment test `needle in hay` on strings. -/
def pyContains (needle hay : String) : Bool := strContainsSub needle.toList hay.toList

/-- Transliteration of the first loading loop (the `ns_corpus` / `ns_label`
cell): corpus and label vector in archive order. -/
def nsLoadCorpusLabel : List ZipEntry → List String × List Nat
  | [] => ([], [])
  | e :: es =>
      if e.isDir then nsLoadCorpusLabel es
      else
        (e.content :: (nsLoadCorpusLabel es).1,
         (if pyContains "rec.autos" e.filename then 1 else 0) :: (nsLoadCorpusLabel es).2)

/-- Transliteration of the second loading loop (the `corpus` / `label` cell of
the stemming section), written separately because the notebook repeats the
loop. -/
def loadCorpusLabel : List ZipEntry → List String × List Nat
  | [] => ([], [])
  | e :: es =>
      if e.isDir then loadCorpusLabel es
      else
        (e.content :: (loadCorpusLabel es).1,
         (if pyContains "rec.autos" e.filename then 1 else 0) :: (loadCorpusLabel es).2)

/-! ## The full pipeline

The randomized stages are parameters that receive their `random_state` seed
explicitly: any Python run with fixed seeds is one instantiation of these
parameters. -/

/-- All observable artifacts of one pipeline run. -/
structure PipelineOutput where
  vocabulary : List String
  counts : List (List Nat)
  tfidf : List (List ℝ)
  latent : List (List ℝ)
  predictions : List Nat

/-- One notebook pipeline run (either configuration): vectorize, weight,
reduce, split, fit and predict.  `svdFit` stands for
`TruncatedSVD(10, random_state=...)`, `splitFn` for `train_test_split` with
its seed, `rfFitPredict` for fitting the seeded random forest on the training
part and predicting the test part. -/
noncomputable def runPipeline
    (wt : String → List String)
    (svdFit : Nat → List (List ℝ) → List (List ℝ))
    (splitFn : Nat → List (List ℝ) → List Nat →
      List (List ℝ) × List (List ℝ) × List Nat × List Nat)
    (rfFitPredict : Nat → List (List ℝ) → List Nat → List (List ℝ) → List Nat)
    (stemming : Bool) (corpus : List String) (label : List Nat)
    (svdSeed splitSeed rfSeed : Nat) : PipelineOutput :=
  let tok := if stemming then lemmaTokenizer wt else simpleTokenizer wt
  let vocab := buildVocabulary tok corpus
  let counts := corpus.map (fun d => countRow vocab (cvAnalyze tok d))
  let weighted := tfidfTransform counts
  let latent := normalizerTransform (svdFit svdSeed weighted)
  let s := splitFn splitSeed latent label
  let preds := rfFitPredict rfSeed s.1 s.2.2.1 s.2.1
  PipelineOutput.mk vocab counts weighted latent preds

/-! ## Helper lemmas -/

theorem charLower_of_upper {c : Char} (h : 65 ≤ c.toNat ∧ c.toNat ≤ 90) :
    charLower c = Char.ofNat (c.toNat + 32) := by
  unfold charLower
  exact if_pos h

theorem charLower_ofNat_add32 {n : Nat} (h1 : 65 ≤ n) (h2 : n ≤ 90) :
    charLower (Char.ofNat (n + 32)) = Char.ofNat (n + 32) := by
  interval_cases n <;> decide

theorem charLower_idem (c : Char) : charLower (charLower c) = charLower c := by
  by_cases h : 65 ≤ c.toNat ∧ c.toNat ≤ 90
  · rw [charLower_of_upper h]
    exact charLower_ofNat_add32 h.1 h.2
  · have hc : charLower c = c := by
      unfold charLower
      exact if_neg h
    rw [hc, hc]

theorem lowerStr_idem (s : String) : lowerStr (lowerStr s) = lowerStr s := by
  unfold lowerStr
  have h : (String.mk (s.toList.map charLower)).toList = s.toList.map charLower := rfl
  rw [h, List.map_map]
  congr 1
  exact List.map_congr_left fun a _ => charLower_idem a

theorem foldr_if_eq_filter_map (p : String → Bool) (f : String → String) (l : List String) :
    l.foldr (fun t acc => if p t then f t :: acc else acc) []
      = (l.filter p).map f := by
  induction l with
  | nil => rfl
  | cons a as ih =>
      by_cases h : p a
      · simp only [List.foldr_cons, List.filter_cons, h, if_true, List.map_cons, ih]
      · simp only [List.foldr_cons, List.filter_cons, h, if_false, ih]
        simp [h]

theorem stop_words_all_lower :
    ENGLISH_STOP_WORDS.all (fun s => lowerStr s == s) = true := by decide

theorem stop_words_lower {s : String} (h : s ∈ ENGLISH_STOP_WORDS) : lowerStr s = s := by
  have hall := List.all_eq_true.mp stop_words_all_lower s h
  exact eq_of_beq hall

theorem length_insertSorted (s : String) (l : List String) :
    (insertSorted s l).length = l.length + 1 := by
  induction l with
  | nil => rfl
  | cons t ts ih =>
      unfold insertSorted
      by_cases h : strLe s t
      · simp [h]
      · simp [h, ih]

theorem length_sortStrings (l : List String) : (sortStrings l).length = l.length := by
  induction l with
  | nil => rfl
  | cons s ss ih =>
      unfold sortStrings
      rw [length_insertSorted, ih, List.length_cons]

theorem dedup_length_map_le (f : String → String) (l : List String) :
    ((l.map f).dedup).length ≤ l.dedup.length := by
  rw [← List.card_toFinset, ← List.card_toFinset]
  have himg : (l.map f).toFinset = l.toFinset.image f := by
    ext b
    simp [List.mem_toFinset, List.mem_map, Finset.mem_image]
  rw [himg]
  exact Finset.card_image_le

theorem getD_map_l2normalize (L : List (List ℝ)) (i : Nat) :
    (L.map l2normalizeRow).getD i [] = l2normalizeRow (L.getD i []) := by
  have hnil : l2normalizeRow [] = [] := by
    unfold l2normalizeRow rowNorm sumSq
    simp
  by_cases h : i < L.length
  · rw [List.getD_eq_getD_get?, List.getD_eq_getD_get?, List.get?_map]
    rw [List.get?_eq_get h]
    simp
  · have h1 : L.length ≤ i := Nat.le_of_not_lt h
    rw [List.getD_eq_getD_get?, List.getD_eq_getD_get?]
    rw [List.get?_eq_none.mpr h1, List.get?_eq_none.mpr (by simpa using h1)]
    simpa using hnil.symm

theorem sumSq_nonneg (row : List ℝ) : 0 ≤ sumSq row := by
  apply List.sum_nonneg
  intro x hx
  obtain ⟨y, _, rfl⟩ := List.mem_map.mp hx
  positivity

theorem sumSq_map_div (row : List ℝ) (c : ℝ) :
    sumSq (row.map (fun x => x / c)) = sumSq row / c ^ 2 := by
  induction row with
  | nil => simp [sumSq]
  | cons a as ih =>
      unfold sumSq at *
      simp only [List.map_cons, List.sum_cons] at *
      rw [ih, div_pow, div_add_div_same]

theorem l2normalizeRow_norm (row : List ℝ) :
    rowNorm (l2normalizeRow row) = 1 ∨ rowNorm (l2normalizeRow row) = 0 := by
  by_cases h : rowNorm row = 0
  · right
    unfold l2normalizeRow
    rw [if_pos h]
    exact h
  · left
    unfold l2normalizeRow
    rw [if_neg h]
    unfold rowNorm at h ⊢
    rw [sumSq_map_div, Real.sq_sqrt (sumSq_nonneg row)]
    have hS0 : sumSq row ≠ 0 := by
      intro h0
      exact h (by rw [h0, Real.sqrt_zero])
    rw [div_self hS0, Real.sqrt_one]

/-! ## Claim theorems -/

/-- Claim C10: the two corpus-loading passes iterate the same archive entries
in the same order with the same labeling rule, so the label vector of the
non-stemmed section equals the label vector of the stemmed section pointwise;
consequently the train/test split called with the stemmed-section labels pairs
every feature row exactly as it would with the non-stemmed-section labels. -/
theorem load_loops_agree (archive : List ZipEntry)
    (split : Nat → List (List ℝ) → List Nat →
      List (List ℝ) × List (List ℝ) × List Nat × List Nat)
    (feats : List (List ℝ)) (seed : Nat) :
    nsLoadCorpusLabel archive = loadCorpusLabel archive
      ∧ split seed feats (loadCorpusLabel archive).2
          = split seed feats (nsLoadCorpusLabel archive).2 := by
  have h : nsLoadCorpusLabel archive = loadCorpusLabel archive := by
    induction archive with
    | nil => rfl
    | cons e es ih => simp only [nsLoadCorpusLabel, loadCorpusLabel, ih]
  exact ⟨h, by rw [h]⟩

/-- Claim C2: determinism: the pipeline output (vocabulary, count matrix,
TF-IDF matrix, latent feature matrix and predictions) is a function of the
corpus, the labels and the seeds alone, so two runs on identical inputs with
identical seeds produce identical artifacts, in either configuration. -/
theorem pipeline_deterministic
    (wt : String → List String)
    (svdFit : Nat → List (List ℝ) → List (List ℝ))
    (splitFn : Nat → List (List ℝ) → List Nat →
      List (List ℝ) × List (List ℝ) × List Nat × List Nat)
    (rfFitPredict : Nat → List (List ℝ) → List Nat → List (List ℝ) → List Nat)
    (stemming : Bool) (corpus₁ corpus₂ : List String) (label₁ label₂ : List Nat)
    (a₁ b₁ c₁ a₂ b₂ c₂ : Nat)
    (hc : corpus₁ = corpus₂) (hl : label₁ = label₂)
    (ha : a₁ = a₂) (hb : b₁ = b₂) (hd : c₁ = c₂) :
    runPipeline wt svdFit splitFn rfFitPredict stemming corpus₁ label₁ a₁ b₁ c₁
      = runPipeline wt svdFit splitFn rfFitPredict stemming corpus₂ label₂ a₂ b₂ c₂ := by
  subst hc
  subst hl
  subst ha
  subst hb
  subst hd
  rfl

/-- Witness for the determinism theorem at a concrete instantiation. -/
theorem pipeline_deterministic_witness :
    runPipeline (fun _ => []) (fun _ m => m) (fun _ f l => (f, f, l, l))
        (fun _ _ y _ => y) true [""] [0] 10 10 5
      = runPipeline (fun _ => []) (fun _ m => m) (fun _ f l => (f, f, l, l))
        (fun _ _ y _ => y) true [""] [0] 10 10 5 :=
  pipeline_deterministic _ _ _ _ _ _ _ _ _ _ _ _ _ _ _ rfl rfl rfl rfl rfl

/-- Claim C9 counterexample: with 2 documents and 5 terms, the component count
3 exceeds min(2, 5) − 1 = 1, yet the code accepts the configuration: the
default randomized solver only validates against the number of features. -/
theorem svd_rank_constraint_counterexample :
    truncatedSVDFitCheck 3 2 5 = Except.ok () ∧ ¬ 3 ≤ min 2 5 - 1 :=
  ⟨rfl, by decide⟩

/-- Claim C9 amended: the reducer accepts a concept count k exactly when k
does not exceed the number of terms; the number of documents is not
constrained, and the error is raised inside fit, before the decomposition. -/
theorem svd_component_constraint (k ns nf : Nat) :
    truncatedSVDFitCheck k ns nf = Except.ok () ↔ k ≤ nf := by
  unfold truncatedSVDFitCheck
  by_cases h : nf < k
  · rw [if_pos h]
    constructor
    · intro hok
      exact absurd hok (by simp)
    · intro hle
      omega
  · rw [if_neg h]
    constructor
    · intro _
      omega
    · intro _
      rfl

/-- Witness for the amended SVD constraint at the notebook configuration
shape: 10 concepts over a larger vocabulary. -/
theorem svd_component_constraint_witness : (10 : Nat) ≤ 29717 :=
  (svd_component_constraint 10 2000 29717).mp rfl

/-- Claim C5 counterexample: the stemming function is not idempotent: the
token agreed stems to agre, and stemming again yields agr. -/
theorem stem_not_idempotent :
    stem "agreed" = "agre" ∧ stem (stem "agreed") = "agr"
      ∧ stem (stem "agreed") ≠ stem "agreed" :=
  ⟨by decide, by decide, by decide⟩

/-- Claim C5 amended: stemming twice agrees with stemming once on every token
that the stemmer maps to its own lowercase form (in particular on all fixed
points of the stemmer); for general tokens the two can differ. -/
theorem stem_idempotent_on_fixed (t : String) (h : stem t = lowerStr t) :
    stem (stem t) = stem t := by
  nth_rewrite 1 [h]
  show stemLower (lowerStr (lowerStr t)) = stem t
  rw [lowerStr_idem]
  rfl

/-- Witness for the restricted idempotence property at a concrete token. -/
theorem stem_idempotent_on_fixed_witness : stem (stem "car") = stem "car" :=
  stem_idempotent_on_fixed "car" (by decide)

/-- Claim C4 counterexample: on the document consisting of the single token
becoming, the code drops the token, because the raw token is compared against
the stopword set before any stemming; under the claimed order (stem first,
then compare) the stem becom would survive, as becom is not a stopword. -/
theorem stem_order_counterexample :
    lemmaTokenizer wordTokenize "becoming" = []
      ∧ lemmaTokenizerClaimOrder wordTokenize "becoming" = ["becom"]
      ∧ lemmaTokenizerClaimOrder wordTokenize "becoming"
          ≠ lemmaTokenizer wordTokenize "becoming" :=
  ⟨by decide, by decide, by decide⟩

/-- Claim C4 amended: in the stemming configuration the stopword comparison is
applied to the raw (pre-lowercased, unstemmed) token, and the stemming rewrite
is applied only afterwards, to the tokens that survived the check; the
non-stemming variant compares the lowercased token. -/
theorem tokenizer_order (wt : String → List String) (doc : String) :
    lemmaTokenizer wt doc
        = ((wt doc).filter (fun t => pyIsAlpha t && !stopContains t)).map stem
      ∧ simpleTokenizer wt doc
        = (wt doc).filter (fun t => pyIsAlpha t && !stopContains (lowerStr t)) := by
  constructor
  · exact foldr_if_eq_filter_map _ _ _
  · have h := foldr_if_eq_filter_map
      (fun t => pyIsAlpha t && !stopContains (lowerStr t)) id (wt doc)
    rw [List.map_id] at h
    exact h

/-- Membership reading of the stopword test. -/
theorem stopContains_iff {t : String} :
    stopContains t = true ↔ t ∈ ENGLISH_STOP_WORDS := by
  exact ⟨List.mem_of_elem_eq_true, List.elem_eq_true_of_mem⟩

/-- Claim C3 counterexample: on the document seriously, the stemming tokenizer
outputs serious, which is a member of the stopword set, so the tokenizer
output is not stopword-free. -/
theorem tokenizer_stopword_counterexample :
    lemmaTokenizer wordTokenize "seriously" = ["serious"]
      ∧ "serious" ∈ ENGLISH_STOP_WORDS
      ∧ ¬ ∀ u ∈ lemmaTokenizer wordTokenize "seriously", u ∉ ENGLISH_STOP_WORDS :=
  ⟨by decide, by decide, by decide⟩

/-- Claim C3 amended: every token of the plain tokenizer is alphabetic and
outside the stopword set; every token of the stemming tokenizer is the stem of
an alphabetic token that is not itself a stopword, but the emitted stem may
land in the stopword set. -/
theorem tokenizer_output_characterization (wt : String → List String) (doc : String) :
    (∀ t ∈ simpleTokenizer wt doc, pyIsAlpha t = true ∧ t ∉ ENGLISH_STOP_WORDS)
      ∧ (∀ u ∈ lemmaTokenizer wt doc,
          ∃ t, t ∈ wt doc ∧ pyIsAlpha t = true ∧ t ∉ ENGLISH_STOP_WORDS ∧ u = stem t) := by
  constructor
  · intro t ht
    have hfold := foldr_if_eq_filter_map
      (fun x => pyIsAlpha x && !stopContains (lowerStr x)) id (wt doc)
    rw [List.map_id] at hfold
    have ht2 : t ∈ (wt doc).filter (fun x => pyIsAlpha x && !stopContains (lowerStr x)) := by
      rw [← hfold]
      exact ht
    have hp := (List.mem_filter.mp ht2).2
    have h1 : pyIsAlpha t = true := (Bool.and_eq_true_iff.mp hp).1
    have h2 : (!stopContains (lowerStr t)) = true := (Bool.and_eq_true_iff.mp hp).2
    refine ⟨h1, ?_⟩
    intro hmem
    rw [stop_words_lower hmem] at h2
    rw [stopContains_iff.mpr hmem] at h2
    exact Bool.false_ne_true (by simpa using h2)
  · intro u hu
    have hfold := foldr_if_eq_filter_map
      (fun x => pyIsAlpha x && !stopContains x) stem (wt doc)
    have hu2 : u ∈ ((wt doc).filter (fun x => pyIsAlpha x && !stopContains x)).map stem := by
      rw [← hfold]
      exact hu
    obtain ⟨t, htf, heq⟩ := List.mem_map.mp hu2
    have hmem := (List.mem_filter.mp htf).1
    have hp := (List.mem_filter.mp htf).2
    have h1 : pyIsAlpha t = true := (Bool.and_eq_true_iff.mp hp).1
    have h2 : (!stopContains t) = true := (Bool.and_eq_true_iff.mp hp).2
    refine ⟨t, hmem, h1, ?_, heq.symm⟩
    intro hstop
    rw [stopContains_iff.mpr hstop] at h2
    exact Bool.false_ne_true (by simpa using h2)

/-- Witness for the tokenizer output characterization at a concrete document. -/
theorem tokenizer_output_characterization_witness :
    pyIsAlpha "Good" = true ∧ "Good" ∉ ENGLISH_STOP_WORDS :=
  (tokenizer_output_characterization wordTokenize "Good the").1 "Good" (by decide)

/-- Claim C6: for every corpus (under any word tokenization whose tokens on
lowercased text are themselves lowercase, as with the library tokenizer), the
vocabulary fitted with the stemming tokenizer is no larger than the vocabulary
fitted with the plain tokenizer: since the vectorizer lowercases documents
first, the two filters keep the same raw tokens, and the stemmed vocabulary is
the image of the plain one under the stemming map. -/
theorem vocabulary_size_stemming_le
    (wt : String → List String) (corpus : List String)
    (hlow : ∀ d t, t ∈ wt (lowerStr d) → lowerStr t = t) :
    (buildVocabulary (lemmaTokenizer wt) corpus).length
      ≤ (buildVocabulary (simpleTokenizer wt) corpus).length := by
  have hdoc : ∀ d, cvAnalyze (lemmaTokenizer wt) d
      = (cvAnalyze (simpleTokenizer wt) d).map stem := by
    intro d
    have h1 := foldr_if_eq_filter_map
      (fun x => pyIsAlpha x && !stopContains x) stem (wt (lowerStr d))
    have h2 := foldr_if_eq_filter_map
      (fun x => pyIsAlpha x && !stopContains (lowerStr x)) id (wt (lowerStr d))
    rw [List.map_id] at h2
    calc cvAnalyze (lemmaTokenizer wt) d
        = ((wt (lowerStr d)).filter (fun x => pyIsAlpha x && !stopContains x)).map stem := h1
      _ = ((wt (lowerStr d)).filter
            (fun x => pyIsAlpha x && !stopContains (lowerStr x))).map stem := by
            congr 1
            apply List.filter_congr
            intro x hx
            rw [hlow d x hx]
      _ = (cvAnalyze (simpleTokenizer wt) d).map stem := by rw [← h2]; rfl
  have hmapjoin : (corpus.map (cvAnalyze (lemmaTokenizer wt))).flatten
      = ((corpus.map (cvAnalyze (simpleTokenizer wt))).flatten).map stem := by
    rw [List.map_flatten, List.map_map]
    congr 1
    exact List.map_congr_left fun d _ => hdoc d
  unfold buildVocabulary
  rw [length_sortStrings, length_sortStrings, hmapjoin]
  exact dedup_length_map_le stem _

/-- Witness for the vocabulary comparison at a concrete corpus. -/
theorem vocabulary_size_stemming_le_witness :
    (buildVocabulary (lemmaTokenizer (fun _ => ["car", "cars"])) ["x"]).length
      ≤ (buildVocabulary (simpleTokenizer (fun _ => ["car", "cars"])) ["x"]).length :=
  vocabulary_size_stemming_le (fun _ => ["car", "cars"]) ["x"]
    (by intro d t ht; fin_cases ht <;> decide)

/-- Claim C7: the weighting stage multiplies each raw count by the smoothed
inverse document frequency log((1+N)/(1+df))+1 before row normalization; the
document frequency never exceeds the document count, the idf is at least 1
(hence strictly positive), and a term occurring in every document receives idf
exactly 1, never zero. -/
theorem tfidf_smoothed_idf (counts : List (List Nat)) (i j : Nat) :
    docFreq counts j ≤ counts.length
      ∧ 1 ≤ idf counts.length (docFreq counts j)
      ∧ (docFreq counts j = counts.length → idf counts.length (docFreq counts j) = 1)
      ∧ tfidfTransform counts = (tfidfWeighted counts).map l2normalizeRow
      ∧ ((tfidfWeighted counts).getD i []).getD j 0
          = ((counts.getD i []).getD j 0 : ℝ) * idf counts.length (docFreq counts j) := by
  have hdf : docFreq counts j ≤ counts.length := List.length_filter_le _ _
  refine ⟨hdf, ?_, ?_, rfl, ?_⟩
  · unfold idf
    have hpos : (0:ℝ) < 1 + (docFreq counts j : ℝ) := by positivity
    have hle : (1 + (docFreq counts j : ℝ)) ≤ 1 + (counts.length : ℝ) := by
      have hcast : ((docFreq counts j : ℕ) : ℝ) ≤ ((counts.length : ℕ) : ℝ) :=
        Nat.cast_le.mpr hdf
      linarith
    have h1 : (1:ℝ) ≤ (1 + (counts.length : ℝ)) / (1 + (docFreq counts j : ℝ)) :=
      (one_le_div hpos).mpr hle
    have := Real.log_nonneg h1
    linarith
  · intro hdfeq
    unfold idf
    rw [hdfeq]
    rw [div_self (by positivity : (1 + (counts.length : ℝ)) ≠ 0), Real.log_one]
    norm_num
  · by_cases hi : i < counts.length
    · have hrow : (tfidfWeighted counts).getD i []
          = (List.range (counts.getD i []).length).map
              (fun k => ((counts.getD i []).getD k 0 : ℝ)
                * idf counts.length (docFreq counts k)) := by
        unfold tfidfWeighted
        rw [List.getD_eq_getD_get?, List.get?_map, List.get?_eq_get hi]
        rw [List.getD_eq_get _ _ hi]
        rfl
      rw [hrow]
      by_cases hj : j < (counts.getD i []).length
      · rw [List.getD_eq_getD_get?, List.get?_map, List.get?_range hj]
        rfl
      · have hlen : ((List.range (counts.getD i []).length).map
            (fun k => ((counts.getD i []).getD k 0 : ℝ)
              * idf counts.length (docFreq counts k))).length
              = (counts.getD i []).length := by
          rw [List.length_map, List.length_range]
        rw [List.getD_eq_default _ _ (by rw [hlen]; exact Nat.le_of_not_lt hj)]
        rw [List.getD_eq_default _ _ (Nat.le_of_not_lt hj)]
        simp
    · have hle : counts.length ≤ i := Nat.le_of_not_lt hi
      have hlen2 : (tfidfWeighted counts).length = counts.length := by
        unfold tfidfWeighted
        rw [List.length_map]
      have h1 : (tfidfWeighted counts).getD i [] = [] :=
        List.getD_eq_default _ _ (by rw [hlen2]; exact hle)
      have h2 : counts.getD i [] = [] := List.getD_eq_default _ _ hle
      rw [h1, h2]
      simp

/-- Witness for the TF-IDF idf properties at a one-document corpus. -/
theorem tfidf_smoothed_idf_witness :
    idf (List.length ([[1]] : List (List Nat))) (docFreq [[1]] 0) = 1 :=
  (tfidf_smoothed_idf [[1]] 0 0).2.2.1 (by decide)

/-- Claim C8 counterexample: in the two-document corpus [good, the] the second
document consists of a stopword only, so its count row and therefore its
TF-IDF row are zero; normalization leaves the zero row unchanged and its
Euclidean norm is 0, not 1. -/
theorem tfidf_zero_row_counterexample :
    rowNorm ((tfidfTransform (fitTransformCounts (simpleTokenizer wordTokenize)
        ["good", "the"])).getD 1 []) ≠ 1 := by
  have hc : fitTransformCounts (simpleTokenizer wordTokenize) ["good", "the"]
      = [[1], [0]] := by decide
  rw [hc]
  have h0 : rowNorm [(0:ℝ)] = 0 := by
    unfold rowNorm sumSq
    simp
  have hw : (tfidfTransform [[1], [0]]).getD 1 [] = l2normalizeRow [(0:ℝ)] := by
    unfold tfidfTransform tfidfWeighted
    simp [List.range_succ]
  rw [hw]
  have hz : l2normalizeRow [(0:ℝ)] = [0] := by
    unfold l2normalizeRow
    rw [if_pos h0]
  rw [hz, h0]
  exact zero_ne_one

/-- Claim C8 amended: every row of the TF-IDF matrix and every row of the
normalized latent matrix has Euclidean norm 1 or 0: the norm is 1 for every
nonzero row and 0 exactly for zero rows, which the normalization leaves in
place. -/
theorem pipeline_rows_unit_or_zero :
    (∀ (counts : List (List Nat)) (i : Nat),
        rowNorm ((tfidfTransform counts).getD i []) = 1
          ∨ rowNorm ((tfidfTransform counts).getD i []) = 0)
      ∧ (∀ (m : List (List ℝ)) (i : Nat),
          rowNorm ((normalizerTransform m).getD i []) = 1
            ∨ rowNorm ((normalizerTransform m).getD i []) = 0) := by
  constructor
  · intro counts i
    unfold tfidfTransform
    rw [getD_map_l2normalize]
    exact l2normalizeRow_norm _
  · intro m i
    unfold normalizerTransform
    rw [getD_map_l2normalize]
    exact l2normalizeRow_norm _

end AutoElectronics
